import Mathlib

/-!
Shallow embedding of the hjson-go encoder (src/encode.go) and proofs about
its specified properties.  Go strings are modelled as Lean strings (lists of
Unicode codepoints); the Go regexp character classes, which match single
codepoints, are modelled as decidable predicates on Char, and the regexp
alternations over anchored literals as explicit string functions.  Machine
details that matter (reflect.Value.Int panicking on unsigned kinds, the
fmt.Sprintf call applied to a nil byte slice) are modelled explicitly where
they occur.
-/

namespace Hjson

/-- Single quote character (codepoint 39), used to build the multiline
string delimiter. -/
def sq : Char := Char.ofNat 39

/-- The three-character multiline string delimiter of hjson. -/
def ml3 : String := String.mk [sq, sq, sq]

/-- Tests whether the list l begins with the pattern p. -/
def hasPre (p l : List Char) : Bool :=
  match p, l with
  | [], _ => true
  | _ :: _, [] => false
  | a :: ps, b :: ls => a = b && hasPre ps ls

/-- Tests whether the pattern p occurs as a contiguous run anywhere in l;
this is what an unanchored regexp literal alternative matches. -/
def hasSub (p : List Char) : List Char → Bool
  | [] => hasPre p []
  | c :: ls => hasPre p (c :: ls) || hasSub p ls

/-- Go regexp class backslash-s: exactly the five ASCII whitespace
characters tab, newline, form feed, carriage return and space (RE2
default, no Unicode flag). -/
def isSpaceGo (c : Char) : Bool :=
  c = ' ' || c = '\t' || c = '\n' || c = Char.ofNat 0x0c || c = Char.ofNat 0x0d

/-- Codepoint class of the needsQuotes regexp compiled in init
(encode.go:52): C0 controls, DEL and C1 controls, soft hyphen, several
Unicode format/bidi ranges, BOM, and the FFF0-FFFF range. -/
def needsQuotesChar (c : Char) : Bool :=
  let n := c.toNat
  n ≤ 0x1f || (0x7f ≤ n && n ≤ 0x9f) || n = 0xad ||
  (0x600 ≤ n && n ≤ 0x604) || n = 0x70f || n = 0x17b4 || n = 0x17b5 ||
  (0x200c ≤ n && n ≤ 0x200f) || (0x2028 ≤ n && n ≤ 0x202f) ||
  (0x2060 ≤ n && n ≤ 0x206f) || n = 0xfeff || (0xfff0 ≤ n && n ≤ 0xffff)

/-- Codepoint class of the needsEscape regexp (encode.go:49): the
needsQuotes class plus backslash and double quote. -/
def needsEscapeChar (c : Char) : Bool :=
  c = '\\' || c = '"' || needsQuotesChar c

/-- Codepoint class part of the needsEscapeML regexp (encode.go:57): the
needsQuotes class minus newline and carriage return. -/
def needsEscapeMLChar (c : Char) : Bool :=
  needsQuotesChar c && !(c = '\n') && !(c = Char.ofNat 0x0d)

/-- MatchString of the needsQuotes regexp: some codepoint of the string is
in the class. -/
def needsQuotesMatch (s : String) : Bool :=
  s.data.any needsQuotesChar

/-- MatchString of the needsEscape regexp. -/
def needsEscapeMatch (s : String) : Bool :=
  s.data.any needsEscapeChar

/-- MatchString of the needsEscapeML regexp: the string contains the
multiline delimiter, or some codepoint in the class. -/
def needsEscapeMLMatch (s : String) : Bool :=
  hasSub ml3.data s.data || s.data.any needsEscapeMLChar

/-- MatchString of the needsQuotes2 regexp (encode.go:54): leading
whitespace, a leading quote, multiline delimiter, hash, comment opener or
opening bracket, or trailing whitespace. -/
def needsQuotes2Match (s : String) : Bool :=
  (match s.data with
   | [] => false
   | c :: _ => isSpaceGo c) ||
  hasPre "\"".data s.data || hasPre ml3.data s.data || hasPre "#".data s.data ||
  hasPre "/*".data s.data || hasPre "//".data s.data ||
  hasPre "\x7b".data s.data || hasPre "[".data s.data ||
  (match s.data.getLast? with
   | none => false
   | some c => isSpaceGo c)

/-- All characters of l differ from newline; this is what the dot-star in
a Go regexp (no s flag) can match. -/
def noNl (l : List Char) : Bool :=
  l.all (fun c => !(c = '\n'))

/-- Matches the trailing group of the startsWithKeyword regexp: a comma,
closing bracket, hash or comment opener followed by anything
newline-free up to the end of the text. -/
def tokenTail (l : List Char) : Bool :=
  match l with
  | ',' :: rest => noNl rest
  | ']' :: rest => noNl rest
  | '\x7d' :: rest => noNl rest
  | '#' :: rest => noNl rest
  | '/' :: '/' :: rest => noNl rest
  | '/' :: '*' :: rest => noNl rest
  | _ => false

/-- Matches backslash-s-star followed by the optional comment tail group
anchored at the end of the text: either everything remaining is
whitespace, or after some whitespace a token tail begins. -/
def kwRest (l : List Char) : Bool :=
  match l with
  | [] => true
  | c :: cs => tokenTail (c :: cs) || (isSpaceGo c && kwRest cs)

/-- MatchString of the anchored startsWithKeyword regexp (encode.go:60):
the text is true, false or null, followed by whitespace and an optional
comment-like tail reaching the end of the text. -/
def startsWithKeywordMatch (s : String) : Bool :=
  (hasPre "true".data s.data && kwRest (s.data.drop 4)) ||
  (hasPre "false".data s.data && kwRest (s.data.drop 5)) ||
  (hasPre "null".data s.data && kwRest (s.data.drop 4))

/-- Consumes one or more decimal digits from the front of l, returning the
remainder, or none when l does not start with a digit. -/
def digits1 (l : List Char) : Option (List Char) :=
  match l with
  | c :: cs =>
    if c.isDigit then
      some (match digits1 cs with
            | some r => r
            | none => cs)
    else none
  | [] => none

/-- Consumes the integer part of a JSON number: a single zero, or a
nonzero digit followed by more digits. -/
def intPart (l : List Char) : Option (List Char) :=
  match l with
  | '0' :: cs => some cs
  | c :: cs =>
    if c.isDigit then
      some (match digits1 cs with
            | some r => r
            | none => cs)
    else none
  | [] => none

/-- Consumes an optional fraction part: a dot followed by one or more
digits, or nothing. -/
def fracPart (l : List Char) : Option (List Char) :=
  match l with
  | '.' :: cs =>
    match digits1 cs with
    | some r => some r
    | none => none
  | _ => some l

/-- Consumes an optional exponent part: e or E, an optional sign, and one
or more digits, or nothing. -/
def expPart (l : List Char) : Option (List Char) :=
  match l with
  | c :: cs =>
    if c = 'e' || c = 'E' then
      match cs with
      | d :: ds =>
        if d = '+' || d = '-' then
          match digits1 ds with
          | some r => some r
          | none => none
        else
          match digits1 (d :: ds) with
          | some r => some r
          | none => none
      | [] => none
    else some l
  | [] => some l

/-- Modelled from the spec: the startsWithNumber classifier called by
quote (encode.go:97) lives in a source file that is not part of this
snapshot; the spec describes it as testing whether the text, read from its
start, parses as a valid JSON-style number.  This definition accepts
exactly the strings that are a complete JSON number: an optional minus
sign, an integer part without leading zeros, an optional fraction and an
optional exponent, consuming the whole text. -/
def startsWithNumber (s : String) : Bool :=
  let l := match s.data with
           | '-' :: cs => cs
           | cs => cs
  match intPart l with
  | none => false
  | some r1 =>
    match fracPart r1 with
    | none => false
    | some r2 =>
      match expPart r2 with
      | none => false
      | some r3 => r3.isEmpty

/-- The fixed substitution table meta (encode.go:66-75), keyed by the
single-byte characters it contains. -/
def metaSubst (c : Char) : Option String :=
  if c = Char.ofNat 0x08 then some "\\b"
  else if c = '\t' then some "\\t"
  else if c = '\n' then some "\\n"
  else if c = Char.ofNat 0x0c then some "\\f"
  else if c = Char.ofNat 0x0d then some "\\r"
  else if c = '"' then some "\\\""
  else if c = '\\' then some "\\\\"
  else none

/-- Embeds quoteReplace (encode.go:77-86).  The needsEscape regexp matches
one codepoint at a time; the replacement function looks up the first byte
of the match in the meta table.  Every meta key is a single-byte ASCII
character and no UTF-8 lead byte of a multi-byte match equals a meta key,
so the lookup hits exactly for the seven table characters.  On a miss the
code formats the nil lookup result c, not the matched character, with
fmt.Sprintf backslash-u percent-04x; the percent-04x verb applied to a nil
byte slice prints the empty hex string zero-padded to width four, so every
miss is replaced by the constant text backslash-u0000. -/
def quoteReplace (s : String) : String :=
  String.join (s.data.map (fun c =>
    if needsEscapeChar c then
      match metaSubst c with
      | some t => t
      | none => "\\u0000"
    else String.singleton c))

/-- Emits Eol followed by the indent unit repeated indent times,
embedding writeIndent (encode.go:172-177) as the string it appends. -/
def writeIndentS (eol indentBy : String) (indent : Nat) : String :=
  eol ++ String.join (List.replicate indent indentBy)

/-- Splits a character list on newline characters, like strings.Split on
a one-character separator: the result always has one more part than the
number of newlines, so it is never empty. -/
def splitNl : List Char → List (List Char)
  | [] => [[]]
  | c :: cs =>
    if c = '\n' then [] :: splitNl cs
    else match splitNl cs with
         | h :: t => (c :: h) :: t
         | [] => [[c]]

/-- Embeds mlString (encode.go:119-142) as the string it appends: remove
all carriage returns, split on newlines, then emit the single-line or the
indented multi-line triple-quoted block. -/
def mlString (eol indentBy : String) (indent : Nat) (value separator : String) : String :=
  let a := (splitNl (value.data.filter (fun c => !(c = Char.ofNat 0x0d)))).map String.mk
  (if a.length = 1 then
    separator ++ ml3 ++ a.headD ""
  else
    writeIndentS eol indentBy (indent + 1) ++ ml3 ++
    String.join (a.map (fun v =>
      writeIndentS eol indentBy (if v.length = 0 then 0 else indent + 1) ++ v)) ++
    writeIndentS eol indentBy (indent + 1))
  ++ ml3

/-- The four-way representation choice made by quote, named so theorems
can speak about which branch is taken. -/
inductive QuoteForm where
  | emptyQ
  | bare
  | plainQ
  | multiline
  | escapedQ
deriving DecidableEq, Repr

/-- The branch structure of quote (encode.go:88-117) as a discriminator:
empty string, bare, plainly quoted, multiline, or escaped and quoted. -/
def quoteForm (quoteAlways : Bool) (value : String) (isRootObject : Bool) : QuoteForm :=
  if value.length = 0 then .emptyQ
  else if quoteAlways || needsQuotesMatch value || needsQuotes2Match value ||
          startsWithNumber value || startsWithKeywordMatch value then
    if !(needsEscapeMatch value) then .plainQ
    else if !(needsEscapeMLMatch value) && !isRootObject then .multiline
    else .escapedQ
  else .bare

/-- Embeds quote (encode.go:88-117) as the string it appends to the
output buffer. -/
def quote (quoteAlways : Bool) (eol indentBy : String) (indent : Nat)
    (value separator : String) (isRootObject : Bool) : String :=
  if value.length = 0 then separator ++ "\"\""
  else if quoteAlways || needsQuotesMatch value || needsQuotes2Match value ||
          startsWithNumber value || startsWithKeywordMatch value then
    if !(needsEscapeMatch value) then separator ++ "\"" ++ value ++ "\""
    else if !(needsEscapeMLMatch value) && !isRootObject then
      mlString eol indentBy indent value separator
    else separator ++ "\"" ++ quoteReplace value ++ "\""
  else separator ++ value

/-- Codepoint class part of the needsEscapeName regexp (encode.go:62):
comma, braces, brackets, whitespace, colon, hash and double quote. -/
def needsEscapeNameChar (c : Char) : Bool :=
  c = ',' || c = Char.ofNat 0x7b || c = '[' || c = Char.ofNat 0x7d || c = ']' ||
  isSpaceGo c || c = ':' || c = '#' || c = '"'

/-- MatchString of the needsEscapeName regexp: some codepoint in the
class, or one of the comment openers or the multiline delimiter occurring
anywhere. -/
def needsEscapeNameMatch (s : String) : Bool :=
  s.data.any needsEscapeNameChar ||
  hasSub "//".data s.data || hasSub "/*".data s.data || hasSub ml3.data s.data

/-- Embeds quoteName (encode.go:144-158). -/
def quoteName (name : String) : String :=
  if name.length = 0 then "\"\""
  else if needsEscapeNameMatch name then
    "\"" ++ (if needsEscapeMatch name then quoteReplace name else name) ++ "\""
  else name

/-- Embeds EncoderOptions (encode.go:16-24). -/
structure EncoderOptions where
  Eol : String
  BracesSameLine : Bool
  EmitRootBraces : Bool
  QuoteAlways : Bool
  IndentBy : String
  AllowMinusZero : Bool
  UnknownAsNull : Bool
deriving DecidableEq, Repr

/-- Embeds DefaultOptions (encode.go:26-36). -/
def DefaultOptions : EncoderOptions :=
  { Eol := "\n", BracesSameLine := false, EmitRootBraces := true,
    QuoteAlways := false, IndentBy := "  ", AllowMinusZero := false,
    UnknownAsNull := false }

/-- Embeds hjsonEncoder (encode.go:38-42): the output buffer, the embedded
options, and the current indentation depth. -/
structure HjsonEncoder where
  out : String
  opts : EncoderOptions
  indent : Nat
deriving DecidableEq, Repr

/-- Appends a string to the encoder's output buffer, modelling the
WriteString calls. -/
def wr (e : HjsonEncoder) (s : String) : HjsonEncoder :=
  { e with out := e.out ++ s }

/-- Abstraction of a Go float64 keeping exactly the distinctions the
encoder's float branch (encode.go:207-221) inspects: NaN, the infinities,
the two signed zeros, and nonzero finite values.  A nonzero finite value
carries the text of its shortest round-tripping representation, already
lower-cased and with the fixed-versus-exponential choice applied, since
binary floating point itself is outside this embedding; for the zero
values the strconv output is exact, namely 0 and -0. -/
inductive GoFloat where
  | nan
  | inf (positive : Bool)
  | negZero
  | posZero
  | finite (shortest : String)
deriving DecidableEq, Repr

/-- Tests the math.IsInf or math.IsNaN condition. -/
def floatNonFinite : GoFloat → Bool
  | .nan => true
  | .inf _ => true
  | _ => false

/-- Tests the Go comparison number == -0, which is an ordinary comparison
with floating zero and therefore holds for both signed zeros. -/
def floatEqZero : GoFloat → Bool
  | .negZero => true
  | .posZero => true
  | _ => false

/-- The shortest-representation text chosen by the strconv.FormatFloat
pair in the float branch; exact for the two zeros, carried for other
finite values, unreachable for non-finite values. -/
def formatFloatShortest : GoFloat → String
  | .negZero => "-0"
  | .posZero => "0"
  | .finite s => s
  | .nan => ""
  | .inf _ => ""

/-- The float branch of str (encode.go:207-221) as the string it appends
after the separator. -/
def floatStr (allowMinusZero : Bool) (f : GoFloat) : String :=
  if floatNonFinite f then "null"
  else if !allowMinusZero && floatEqZero f then "0"
  else formatFloatShortest f

/-- The value tree seen by the encoder after reflection, one constructor
per kind group of the switch in str (encode.go:179-310).  vnil is a nil
pointer or nil interface (the IsNil test at encode.go:185-189); non-nil
pointers and interfaces are already dereferenced in this view.  vint
covers all eleven integer kinds of the case at encode.go:201, with signed
false for the Uint kinds and Uintptr.  vmap entries are listed in the
arbitrary order the host map exposes them.  vother is any reflect kind
outside the handled set and carries the name of its Go type. -/
inductive HVal where
  | vnil
  | vbool (b : Bool)
  | vint (signed : Bool) (n : Int)
  | vfloat (f : GoFloat)
  | vstr (s : String)
  | varr (elems : List HVal)
  | vmap (entries : List (String × HVal))
  | vother (typeName : String)

/-- Outcome of a call into the encoder: a normal return carrying the new
encoder state or the produced bytes, a returned error, or a Go runtime
panic. -/
inductive EncResult (α : Type) where
  | ok (a : α)
  | err (msg : String)
  | panicked (msg : String)
deriving DecidableEq, Repr

/-- Strict lexicographic order on codepoint sequences.  This is the Go
string comparison used by the SortAlpha Less method (encode.go:168-170):
Go compares strings byte by byte, and on valid UTF-8 the bytewise order
coincides with the codepoint-lexicographic order. -/
def listCharLt : List Char → List Char → Bool
  | [], [] => false
  | [], _ :: _ => true
  | _ :: _, [] => false
  | a :: as, b :: bs => a < b || (a = b && listCharLt as bs)

/-- Embeds the key ordering of the map branch (encode.go:283-284): the
entries sorted ascending by key text under the SortAlpha Less comparison
(encode.go:168-170).  Map keys are distinct, so the sorted arrangement
sort.Sort must produce is unique and any sorting algorithm realizes it;
insertion sort over the reflexive closure of Less is used here. -/
def sortAlpha (l : List (String × HVal)) : List (String × HVal) :=
  List.insertionSort (fun a b => listCharLt b.1.data a.1.data = false) l

/-- Permuting a list does not change its sizeOf, which is one plus the sum
over elements of one plus the element's sizeOf. -/
theorem perm_sizeOf {α : Type} [SizeOf α] {l1 l2 : List α} (h : l1.Perm l2) :
    sizeOf l1 = sizeOf l2 := by
  induction h with
  | nil => rfl
  | cons x _ ih => simp [ih]
  | swap x y l => simp; omega
  | trans _ _ ih1 ih2 => omega

/-- sortAlpha preserves sizeOf, since it permutes its input. -/
theorem sortAlpha_sizeOf (l : List (String × HVal)) :
    sizeOf (sortAlpha l) = sizeOf l :=
  perm_sizeOf (List.perm_insertionSort _ l)

mutual

/-- Embeds str (encode.go:179-310): produce text for one value into the
encoder's buffer, returning the updated encoder, an error, or a panic.
The integer case calls reflect.Value.Int, which panics when the value's
kind is one of the unsigned kinds listed in the same case clause; the
signed values print via strconv.FormatInt in base 10. -/
def str (e : HjsonEncoder) (value : HVal) (noIndent : Bool) (separator : String)
    (isRootObject : Bool) : EncResult HjsonEncoder :=
  match value with
  | .vnil => .ok (wr (wr e separator) "null")
  | .vstr s =>
    .ok (wr e (quote e.opts.QuoteAlways e.opts.Eol e.opts.IndentBy e.indent s
               separator isRootObject))
  | .vint signed n =>
    if signed then .ok (wr (wr e separator) (toString n))
    else .panicked "reflect: call of reflect.Value.Int on uint Value"
  | .vfloat f => .ok (wr (wr e separator) (floatStr e.opts.AllowMinusZero f))
  | .vbool b => .ok (wr (wr e separator) (if b then "true" else "false"))
  | .varr elems =>
    if elems.length = 0 then .ok (wr (wr e separator) "[]")
    else
      let indent1 := e.indent
      let e1 := { e with indent := e.indent + 1 }
      let e2 := if !noIndent && !e1.opts.BracesSameLine then
                  wr e1 (writeIndentS e1.opts.Eol e1.opts.IndentBy indent1)
                else wr e1 separator
      let e3 := wr e2 "["
      match strArr e3 elems with
      | .ok e4 =>
        let e5 := wr e4 (writeIndentS e4.opts.Eol e4.opts.IndentBy indent1)
        let e6 := wr e5 "]"
        .ok { e6 with indent := indent1 }
      | .err m => .err m
      | .panicked m => .panicked m
  | .vmap entries =>
    if entries.length = 0 then .ok (wr (wr e separator) "\x7b\x7d")
    else
      let showBraces := !isRootObject || e.opts.EmitRootBraces
      let indent1 := e.indent
      let e1 := { e with indent := e.indent + 1 }
      let e2 := if showBraces then
                  wr (if !noIndent && !e1.opts.BracesSameLine then
                        wr e1 (writeIndentS e1.opts.Eol e1.opts.IndentBy indent1)
                      else wr e1 separator) "\x7b"
                else e1
      match strMap e2 (sortAlpha entries) with
      | .ok e3 =>
        let e4 := if showBraces then
                    wr (wr e3 (writeIndentS e3.opts.Eol e3.opts.IndentBy indent1)) "\x7d"
                  else e3
        .ok { e4 with indent := indent1 }
      | .err m => .err m
      | .panicked m => .panicked m
  | .vother typeName =>
    if e.opts.UnknownAsNull then .ok (wr e "null")
    else .err ("Unsupported type " ++ typeName)
termination_by sizeOf value
decreasing_by
  all_goals simp_wf
  all_goals first
    | omega
    | (rw [sortAlpha_sizeOf]; omega)

/-- The element loop of the slice and array case (encode.go:251-254):
before each element an indented line break at the current depth, then the
element with noIndent true, empty separator, not root. -/
def strArr (e : HjsonEncoder) (elems : List HVal) : EncResult HjsonEncoder :=
  match elems with
  | [] => .ok e
  | v :: rest =>
    let e1 := wr e (writeIndentS e.opts.Eol e.opts.IndentBy e.indent)
    match str e1 v true "" false with
    | .ok e2 => strArr e2 rest
    | .err m => .err m
    | .panicked m => .panicked m
termination_by sizeOf elems
decreasing_by
  all_goals simp_wf <;> omega

/-- The member loop of the map case (encode.go:287-292): before each
member an indented line break, then the quoted or bare key, a colon, and
the member value with noIndent false, a single-space separator, not
root. -/
def strMap (e : HjsonEncoder) (entries : List (String × HVal)) : EncResult HjsonEncoder :=
  match entries with
  | [] => .ok e
  | (k, v) :: rest =>
    let e1 := wr (wr (wr e (writeIndentS e.opts.Eol e.opts.IndentBy e.indent))
                  (quoteName k)) ":"
    match str e1 v false " " false with
    | .ok e2 => strMap e2 rest
    | .err m => .err m
    | .panicked m => .panicked m
termination_by sizeOf entries
decreasing_by
  all_goals simp_wf <;> omega

end

/-- Embeds MarshalWithOptions (encode.go:316-330).  The encoder is
zero-initialized and then only the Eol, BracesSameLine, EmitRootBraces,
QuoteAlways and IndentBy fields are copied from the caller's options; the
AllowMinusZero and UnknownAsNull fields are left at their zero value
false. -/
def MarshalWithOptions (v : HVal) (options : EncoderOptions) : EncResult String :=
  let e : HjsonEncoder :=
    { out := "",
      indent := 0,
      opts := { Eol := options.Eol,
                BracesSameLine := options.BracesSameLine,
                EmitRootBraces := options.EmitRootBraces,
                QuoteAlways := options.QuoteAlways,
                IndentBy := options.IndentBy,
                AllowMinusZero := false,
                UnknownAsNull := false } }
  match str e v true "" true with
  | .ok e2 => .ok e2.out
  | .err m => .err m
  | .panicked m => .panicked m

/-- Embeds Marshal (encode.go:312-314). -/
def Marshal (v : HVal) : EncResult String :=
  MarshalWithOptions v DefaultOptions

/-- Follows the spec's words for the Name-escape-worthy codepoints: any of
comma, the braces, the square brackets, colon, hash, or whitespace.  Stated
for comparison with needsEscapeNameChar, the class compiled from the
source, which also contains the double quote. -/
def specNameEscapeWorthyChar (c : Char) : Bool :=
  c = ',' || c = Char.ofNat 0x7b || c = '[' || c = Char.ofNat 0x7d || c = ']' ||
  c = ':' || c = '#' || isSpaceGo c

/-- Follows the spec's words for the Name-escape-worthy set of mapping
keys: a key containing one of the listed codepoints, or one of the
sequences of two slashes, slash-star, or the multiline delimiter. -/
def specNameEscapeWorthy (s : String) : Bool :=
  s.data.any specNameEscapeWorthyChar ||
  hasSub "//".data s.data || hasSub "/*".data s.data || hasSub ml3.data s.data

end Hjson

namespace Hjson

/-- A nonempty string has nonzero length. -/
theorem length_ne_zero_of_ne_empty {s : String} (h : ¬ s = "") : ¬ s.length = 0 := by
  cases s with
  | mk data => cases data <;> simp_all [String.length]

/-- A string of length zero is the empty string. -/
theorem eq_empty_of_length_eq_zero {s : String} (h : s.length = 0) : s = "" := by
  cases s with
  | mk data => cases data <;> simp_all [String.length]

/-- Any-over-a-disjunction splits into a disjunction of anys. -/
theorem any_or_split (f g : Char → Bool) (l : List Char) :
    l.any (fun c => f c || g c) = (l.any f || l.any g) := by
  induction l with
  | nil => rfl
  | cons c cs ih =>
    simp only [List.any_cons, ih]
    cases f c <;> cases g c <;> simp

/-- The codepoint class of needsEscapeName is the class the spec lists
for Name-escape-worthy keys together with the double quote. -/
theorem nameChar_amended (c : Char) :
    needsEscapeNameChar c = (specNameEscapeWorthyChar c || c = '"') := by
  rw [Bool.eq_iff_iff]
  simp only [needsEscapeNameChar, specNameEscapeWorthyChar, Bool.or_eq_true]
  tauto

/-- Reassociation fact for five booleans, used to move the double-quote
disjunct outward. -/
theorem or_shuffle :
    ∀ (a b c d e : Bool),
      ((((a || e) || b) || c) || d) = ((((a || b) || c) || d) || e) := by
  decide

/-- Appending with wr leaves the indentation depth unchanged. -/
theorem wr_indent (e : HjsonEncoder) (s : String) : (wr e s).indent = e.indent := rfl

/-- The strict lexicographic comparison is asymmetric. -/
theorem lcl_asymm : ∀ {a b : List Char}, listCharLt a b = true → listCharLt b a = false
  | [], [], h => by simp [listCharLt] at h
  | [], _ :: _, _ => rfl
  | _ :: _, [], h => by simp [listCharLt] at h
  | a :: as, b :: bs, h => by
    simp only [listCharLt, Bool.or_eq_true, Bool.and_eq_true, decide_eq_true_eq] at h
    simp only [listCharLt]
    rcases h with h | ⟨rfl, h⟩
    · rw [decide_eq_false (lt_asymm h),
        decide_eq_false (fun he : b = a => (ne_of_lt h) he.symm)]
      rfl
    · rw [decide_eq_false (lt_irrefl a), lcl_asymm h]
      simp

/-- The strict lexicographic comparison is transitive. -/
theorem lcl_trans : ∀ {a b c : List Char},
    listCharLt a b = true → listCharLt b c = true → listCharLt a c = true
  | [], _, _ :: _, _, _ => rfl
  | [], _ :: _, [], _, h2 => by simp [listCharLt] at h2
  | [], [], [], h1, _ => by simp [listCharLt] at h1
  | _ :: _, [], _, h1, _ => by simp [listCharLt] at h1
  | _ :: _, _ :: _, [], _, h2 => by simp [listCharLt] at h2
  | a :: as, b :: bs, c :: cs, h1, h2 => by
    simp only [listCharLt, Bool.or_eq_true, Bool.and_eq_true, decide_eq_true_eq] at h1 h2 ⊢
    rcases h1 with h1 | ⟨rfl, h1⟩
    · rcases h2 with h2 | ⟨rfl, h2⟩
      · exact Or.inl (lt_trans h1 h2)
      · exact Or.inl h1
    · rcases h2 with h2 | ⟨rfl, h2⟩
      · exact Or.inl h2
      · exact Or.inr ⟨rfl, lcl_trans h1 h2⟩

/-- Two lists neither of which precedes the other are equal. -/
theorem lcl_connex : ∀ {a b : List Char},
    listCharLt a b = false → listCharLt b a = false → a = b
  | [], [], _, _ => rfl
  | [], _ :: _, h1, _ => by simp [listCharLt] at h1
  | _ :: _, [], _, h2 => by simp [listCharLt] at h2
  | a :: as, b :: bs, h1, h2 => by
    simp only [listCharLt, Bool.or_eq_false_iff, Bool.and_eq_false_iff,
      decide_eq_false_iff_not] at h1 h2
    obtain ⟨hab, h1r⟩ := h1
    obtain ⟨hba, h2r⟩ := h2
    have hkey : a = b := le_antisymm (not_lt.mp hba) (not_lt.mp hab)
    subst hkey
    rcases h1r with h1r | h1r
    · exact absurd rfl h1r
    · rcases h2r with h2r | h2r
      · exact absurd rfl h2r
      · rw [lcl_connex h1r h2r]

/-- Strings with equal codepoint lists are equal. -/
theorem string_eq_of_data_eq {s t : String} (h : s.data = t.data) : s = t := by
  cases s with
  | mk d1 =>
    cases t with
    | mk d2 => exact congrArg String.mk h

instance : IsTotal (String × HVal) (fun a b => listCharLt b.1.data a.1.data = false) :=
  ⟨fun a b => by
    cases h : listCharLt b.1.data a.1.data with
    | false => exact Or.inl rfl
    | true => exact Or.inr (lcl_asymm h)⟩

instance : IsTrans (String × HVal) (fun a b => listCharLt b.1.data a.1.data = false) :=
  ⟨fun a b c h1 h2 => by
    cases h : listCharLt c.1.data a.1.data with
    | false => rfl
    | true =>
      cases hab : listCharLt a.1.data b.1.data with
      | true => simp [lcl_trans h hab] at h2
      | false =>
        have he : a.1.data = b.1.data := lcl_connex hab h1
        rw [he] at h
        simp [h] at h2⟩

instance : IsAntisymm (String × HVal) (fun a b => listCharLt a.1.data b.1.data = true) :=
  ⟨fun a b h1 h2 => by rw [lcl_asymm h1] at h2; cases h2⟩

/-- The sorted entry list is a permutation of the exposed entry list. -/
theorem sortAlpha_perm (l : List (String × HVal)) : (sortAlpha l).Perm l :=
  List.perm_insertionSort _ l

/-- The sorted entry list is ascending under the reflexive closure of the
key comparison. -/
theorem sortAlpha_sorted (l : List (String × HVal)) :
    List.Pairwise (fun a b : String × HVal => listCharLt b.1.data a.1.data = false)
      (sortAlpha l) :=
  List.sorted_insertionSort _ l

/-- With distinct keys the sorted entry list is strictly ascending in the
key text. -/
theorem sortAlpha_strict (l : List (String × HVal)) (hnd : (l.map Prod.fst).Nodup) :
    List.Pairwise (fun a b : String × HVal => listCharLt a.1.data b.1.data = true)
      (sortAlpha l) := by
  have hs := sortAlpha_sorted l
  have hnd2 : ((sortAlpha l).map Prod.fst).Nodup :=
    (((sortAlpha_perm l).map Prod.fst).nodup_iff).mpr hnd
  have hne : List.Pairwise (fun a b : String × HVal => ¬ a.1 = b.1) (sortAlpha l) := by
    have hnd3 : List.Pairwise (fun a b => a ≠ b) (List.map Prod.fst (sortAlpha l)) := hnd2
    exact (List.pairwise_map.mp hnd3).imp (fun h => h)
  refine (hs.and hne).imp ?_
  intro a b h
  obtain ⟨h1, h2⟩ := h
  cases h3 : listCharLt a.1.data b.1.data with
  | true => rfl
  | false => exact absurd (string_eq_of_data_eq (lcl_connex h3 h1)) h2

/-- Two entry lists with the same distinct-keyed entries sort to the same
list: the sorted arrangement is unique. -/
theorem sortAlpha_eq_of_perm {l l2 : List (String × HVal)}
    (hnd : (l.map Prod.fst).Nodup) (hp : l.Perm l2) : sortAlpha l = sortAlpha l2 :=
  List.eq_of_perm_of_sorted
    ((sortAlpha_perm l).trans (hp.trans (sortAlpha_perm l2).symm))
    (sortAlpha_strict l hnd)
    (sortAlpha_strict l2 (((hp.map Prod.fst).nodup_iff).mp hnd))

/-- The quote function emits exactly the representation selected by
quoteForm: the branch structure of the two definitions coincides. -/
theorem quote_eq_quoteForm (quoteAlways : Bool) (eol indentBy : String) (indent : Nat)
    (value separator : String) (isRootObject : Bool) :
    quote quoteAlways eol indentBy indent value separator isRootObject =
      match quoteForm quoteAlways value isRootObject with
      | .emptyQ => separator ++ "\"\""
      | .bare => separator ++ value
      | .plainQ => separator ++ "\"" ++ value ++ "\""
      | .multiline => mlString eol indentBy indent value separator
      | .escapedQ => separator ++ "\"" ++ quoteReplace value ++ "\"" := by
  unfold quote quoteForm
  split_ifs <;> rfl

/-- C1 counterexample: as stated the claimed property also covers the
empty string, but encoding the empty string emits a pair of double quotes,
not the empty string verbatim. -/
theorem C1_counterexample :
    Marshal (.vstr "") = .ok "\"\"" ∧ ¬ ("\"\"" : String) = "" := by
  constructor
  · simp [Marshal, MarshalWithOptions, str, wr, quote]
  · decide

/-- C1 amended: for every non-empty string that matches none of the
quote-forcing classifiers, and with the always-quote option off, encoding
the string emits it verbatim with no surrounding quotes. -/
theorem C1_bare_strings (opts : EncoderOptions) (s : String)
    (hqa : opts.QuoteAlways = false) (hne : ¬ s = "")
    (h1 : needsQuotesMatch s = false) (h2 : needsQuotes2Match s = false)
    (h3 : startsWithNumber s = false) (h4 : startsWithKeywordMatch s = false) :
    MarshalWithOptions (.vstr s) opts = .ok s := by
  have hlen := length_ne_zero_of_ne_empty hne
  simp [MarshalWithOptions, str, wr, quote, hqa, hlen, h1, h2, h3, h4]

/-- C1 witness: the string hello satisfies every hypothesis and encodes
bare. -/
theorem C1_witness :
    MarshalWithOptions (.vstr "hello") DefaultOptions = .ok "hello" :=
  C1_bare_strings DefaultOptions "hello" rfl (by decide) (by decide) (by decide)
    (by decide) (by decide)

/-- C2 counterexample: a string containing the triple-quote delimiter but
requiring no quoting at all is emitted bare, not in a quoted form, so the
claim's clause that a quoted form is emitted in those cases fails as
stated. -/
theorem C2_counterexample :
    hasSub ml3.data ("a" ++ ml3 ++ "b").data = true ∧
    quoteForm false ("a" ++ ml3 ++ "b") false = .bare ∧
    quote false "\n" "  " 0 ("a" ++ ml3 ++ "b") " " false
      = " " ++ ("a" ++ ml3 ++ "b") := by
  refine ⟨by decide, by decide, by decide⟩

/-- C2 amended: the multiline representation is never chosen when the
string contains the triple-quote delimiter or is the document's root
value; in those cases, whenever the string requires quoting at all, a
quoted (plain or escaped) form is chosen instead. -/
theorem C2_no_multiline (quoteAlways : Bool) (s : String) (isRootObject : Bool)
    (h : hasSub ml3.data s.data = true ∨ isRootObject = true) :
    ¬ quoteForm quoteAlways s isRootObject = .multiline ∧
    (¬ s = "" →
      (quoteAlways || needsQuotesMatch s || needsQuotes2Match s ||
        startsWithNumber s || startsWithKeywordMatch s) = true →
      quoteForm quoteAlways s isRootObject = .plainQ ∨
      quoteForm quoteAlways s isRootObject = .escapedQ) := by
  have hml : needsEscapeMLMatch s = true ∨ isRootObject = true := by
    cases h with
    | inl h => exact Or.inl (by simp [needsEscapeMLMatch, h])
    | inr h => exact Or.inr h
  unfold quoteForm
  split_ifs with h0 h1 h2 h3
  · exact ⟨by simp, fun hne _ => absurd (eq_empty_of_length_eq_zero h0) hne⟩
  · exact ⟨by simp, fun _ _ => Or.inl rfl⟩
  · refine absurd h3 ?_
    cases hml with
    | inl hm => simp [hm]
    | inr hr => simp [hr]
  · exact ⟨by simp, fun _ _ => Or.inr rfl⟩
  · exact ⟨by simp, fun _ hc => absurd hc h1⟩

/-- C2 witness: a non-root string containing both the delimiter and a
newline is not rendered multiline but escaped-quoted. -/
theorem C2_witness :
    ¬ quoteForm false ("x" ++ ml3 ++ "\n") false = .multiline ∧
    (quoteForm false ("x" ++ ml3 ++ "\n") false = .plainQ ∨
      quoteForm false ("x" ++ ml3 ++ "\n") false = .escapedQ) :=
  ⟨(C2_no_multiline false ("x" ++ ml3 ++ "\n") false (Or.inl (by decide))).1,
   (C2_no_multiline false ("x" ++ ml3 ++ "\n") false (Or.inl (by decide))).2
     (by decide) (by decide)⟩

/-- C3: the escaper substitutes the seven table characters correctly, but
for every other escape-worthy character it emits the constant text
backslash-u0000 instead of a Unicode escape denoting that character's
codepoint: the replacement function formats the nil table-lookup result
rather than the matched character, so the codepoints U+0001 and U+00AD
are both rewritten to backslash-u0000, contradicting the claimed
backslash-u0001 and backslash-u00ad. -/
theorem C3_escaper_constant_escape :
    quoteReplace (String.singleton (Char.ofNat 0x01)) = "\\u0000" ∧
    quoteReplace (String.singleton (Char.ofNat 0xad)) = "\\u0000" ∧
    quoteReplace "\t\\\"" = "\\t\\\\\\\"" ∧
    quoteReplace "ab" = "ab" ∧
    ¬ "\\u0000" = "\\u0001" ∧ ¬ "\\u0000" = "\\u00ad" := by
  refine ⟨rfl, rfl, rfl, rfl, by decide, by decide⟩

/-- C4: for a mapping with distinct keys, the emitted entries appear in
strictly ascending lexicographic order of the key text, and encoding the
same mapping with its entries exposed in any other order yields the
identical output for every option set. -/
theorem C4_keys_sorted_deterministic (l l2 : List (String × HVal))
    (opts : EncoderOptions)
    (hnd : (l.map Prod.fst).Nodup) (hp : l.Perm l2) :
    List.Pairwise (fun a b : String × HVal => listCharLt a.1.data b.1.data = true)
      (sortAlpha l) ∧
    MarshalWithOptions (.vmap l) opts = MarshalWithOptions (.vmap l2) opts := by
  refine ⟨sortAlpha_strict l hnd, ?_⟩
  have hs := sortAlpha_eq_of_perm hnd hp
  have hl : l.length = l2.length := hp.length_eq
  simp only [MarshalWithOptions, str]
  rw [hl, hs]

/-- C4 witness: a two-entry mapping exposed in both orders sorts to the
ascending key order and encodes identically. -/
theorem C4_witness :
    List.Pairwise (fun a b : String × HVal => listCharLt a.1.data b.1.data = true)
      (sortAlpha [("b", .vbool true), ("a", .vnil)]) ∧
    MarshalWithOptions (.vmap [("b", .vbool true), ("a", .vnil)]) DefaultOptions
      = MarshalWithOptions (.vmap [("a", .vnil), ("b", .vbool true)]) DefaultOptions :=
  C4_keys_sorted_deterministic [("b", .vbool true), ("a", .vnil)]
    [("a", .vnil), ("b", .vbool true)] DefaultOptions (by decide)
    (List.Perm.swap _ _ _)

/-- C5: encoding negative zero with allowNegativeZero set to true in the
options still yields 0, because MarshalWithOptions never copies the
AllowMinusZero option into the encoder; the float branch of str itself
would honor the flag, as the last two conjuncts show. -/
theorem C5_minusZero_option_dropped :
    MarshalWithOptions (.vfloat .negZero)
        { DefaultOptions with AllowMinusZero := true } = .ok "0" ∧
    MarshalWithOptions (.vfloat .negZero) DefaultOptions = .ok "0" ∧
    floatStr true .negZero = "-0" ∧
    floatStr false .negZero = "0" := by
  refine ⟨?_, ?_, rfl, rfl⟩ <;>
    simp [MarshalWithOptions, str, wr, floatStr, floatNonFinite, floatEqZero,
      DefaultOptions, formatFloatShortest]

/-- C6: encoding a value of an unsupported shape with unknownAsNull set to
true in the options still returns the unsupported-type error, because
MarshalWithOptions never copies the UnknownAsNull option into the encoder;
the default branch of str itself would emit null without error, as the
last conjunct shows. -/
theorem C6_unknown_option_dropped :
    MarshalWithOptions (.vother "chan int")
        { DefaultOptions with UnknownAsNull := true }
      = .err "Unsupported type chan int" ∧
    MarshalWithOptions (.vother "chan int") DefaultOptions
      = .err "Unsupported type chan int" ∧
    str { out := "", opts := { DefaultOptions with UnknownAsNull := true }, indent := 0 }
        (.vother "chan int") true "" true
      = .ok { out := "null",
              opts := { DefaultOptions with UnknownAsNull := true }, indent := 0 } := by
  refine ⟨?_, ?_, ?_⟩ <;>
    simp [MarshalWithOptions, str, wr, DefaultOptions]

/-- C7: encoding an unsigned integer value panics instead of returning its
decimal text: the integer case of str covers the unsigned kinds but calls
reflect.Value.Int, which panics for them; signed integers do print in
base-10 decimal. -/
theorem C7_unsigned_int_panics :
    Marshal (.vint false 1)
      = .panicked "reflect: call of reflect.Value.Int on uint Value" ∧
    Marshal (.vint true 42) = .ok "42" ∧
    Marshal (.vint true (-5)) = .ok "-5" := by
  refine ⟨?_, ?_, ?_⟩ <;>
    (simp [Marshal, MarshalWithOptions, str, wr]; try rfl)

/-- C8 counterexample: the key consisting of the letter a, a double quote
and the letter b is not in the Name-escape-worthy set as the spec defines
it, yet the code does not emit it bare: the compiled class also contains
the double quote, so the key is escaped and wrapped in quotes. -/
theorem C8_counterexample :
    specNameEscapeWorthy "a\"b" = false ∧
    quoteName "a\"b" = "\"a\\\"b\"" ∧
    ¬ quoteName "a\"b" = "a\"b" := by
  refine ⟨by decide, by decide, by decide⟩

/-- C8 amended: a mapping key is emitted as a pair of quotes when empty,
wrapped in double quotes (escaped first exactly when it also matches the
escape-worthy class) exactly when it matches the Name-escape-worthy set,
and emitted bare otherwise, where the Name-escape-worthy set is the one
the spec lists extended with the double quote character. -/
theorem C8_quoteName_keys (k : String) :
    (k = "" → quoteName k = "\"\"") ∧
    (¬ k = "" → needsEscapeNameMatch k = true → needsEscapeMatch k = true →
      quoteName k = "\"" ++ quoteReplace k ++ "\"") ∧
    (¬ k = "" → needsEscapeNameMatch k = true → needsEscapeMatch k = false →
      quoteName k = "\"" ++ k ++ "\"") ∧
    (¬ k = "" → needsEscapeNameMatch k = false → quoteName k = k) ∧
    needsEscapeNameMatch k
      = (specNameEscapeWorthy k || k.data.any (fun c => c = '"')) := by
  refine ⟨?_, ?_, ?_, ?_, ?_⟩
  · intro h; subst h; rfl
  · intro hne hn he
    have hlen := length_ne_zero_of_ne_empty hne
    simp [quoteName, hlen, hn, he]
  · intro hne hn he
    have hlen := length_ne_zero_of_ne_empty hne
    simp [quoteName, hlen, hn, he]
  · intro hne hn
    have hlen := length_ne_zero_of_ne_empty hne
    simp [quoteName, hlen, hn]
  · unfold needsEscapeNameMatch specNameEscapeWorthy
    have hf : needsEscapeNameChar
        = (fun c => specNameEscapeWorthyChar c || decide (c = '"')) :=
      funext (fun c => nameChar_amended c)
    rw [hf, any_or_split]
    exact or_shuffle _ _ _ _ _

/-- C8 witness: a plain key is emitted bare and a key containing a space
is wrapped in quotes without escaping. -/
theorem C8_witness :
    quoteName "abc" = "abc" ∧ quoteName "a b" = "\"a b\"" :=
  ⟨(C8_quoteName_keys "abc").2.2.2.1 (by decide) (by decide),
   (C8_quoteName_keys "a b").2.2.1 (by decide) (by decide) (by decide)⟩

/-- C9: whenever a call of str returns normally, the final indentation
depth equals the depth before the call: scalars never touch it and both
container branches restore it explicitly, so the push/pop discipline
holds for every completed encoding. -/
theorem C9_indent_restored (e : HjsonEncoder) (v : HVal) (noIndent : Bool)
    (separator : String) (isRootObject : Bool) (e2 : HjsonEncoder)
    (h : str e v noIndent separator isRootObject = .ok e2) :
    e2.indent = e.indent := by
  cases v <;> simp only [str] at h <;>
    (repeat' split at h) <;>
    (try cases h) <;> simp_all [wr]

/-- C9 witness: encoding a one-element sequence from depth three returns
to depth three. -/
theorem C9_witness :
    str { out := "", opts := DefaultOptions, indent := 3 } (.varr [.vbool true])
        true "" false
      = .ok { out := "[\n        true\n      ]", opts := DefaultOptions, indent := 3 } ∧
    ({ out := "[\n        true\n      ]", opts := DefaultOptions,
       indent := 3 } : HjsonEncoder).indent
      = ({ out := "", opts := DefaultOptions, indent := 3 } : HjsonEncoder).indent :=
  ⟨by simp [str, strArr, wr, writeIndentS, DefaultOptions]; decide,
   C9_indent_restored { out := "", opts := DefaultOptions, indent := 3 }
     (.varr [.vbool true]) true "" false _
     (by simp [str, strArr, wr, writeIndentS, DefaultOptions]; decide)⟩

/-- C10: a nil pointer or nil interface value encodes as the separator
followed by the literal null and returns no error, for every encoder state
and in particular whatever the UnknownAsNull option holds. -/
theorem C10_nil_encodes_null (e : HjsonEncoder) (noIndent : Bool)
    (separator : String) (isRootObject : Bool) :
    str e .vnil noIndent separator isRootObject
      = .ok { e with out := e.out ++ (separator ++ "null") } := by
  simp [str, wr, String.append_assoc]

end Hjson
